import Mathlib

/-!
Shallow embedding of the domain-classification engine of `domainset.go`
(the `cow` proxy).  Pure data and control flow are translated directly from
the Go source; collaborators that live outside `domainset.go` (the parsed
`URL` type, the global `config` object, the `TimeoutSet`, the line-reading
and trimming utilities, the file system) are modelled from the spec at the
boundary described there.  All definitions are executable so that concrete
scenarios can be evaluated by the kernel.
-/

/-- Lexicographic comparison of character lists, used to model Go's
`sort.Sort(sort.StringSlice(lst))` (lexicographic string sort) with a
kernel-computable comparator. -/
def lexLe : List Char → List Char → Bool
  | [], _ => true
  | _ :: _, [] => false
  | a :: as, b :: bs =>
    if a < b then true
    else if b < a then false
    else lexLe as bs

/-- Lexicographic `≤` on strings (by their character data). -/
def strLe (a b : String) : Bool :=
  lexLe a.data b.data

/-- The lexicographic order on strings as a propositional relation. -/
abbrev strLeProp (a b : String) : Prop :=
  strLe a b = true

/-- Modelled from the spec: Go's `strings.TrimSpace` (standard library,
outside this repository) removes leading and trailing whitespace. -/
def trimChars (l : List Char) : List Char :=
  ((l.dropWhile Char.isWhitespace).reverse.dropWhile Char.isWhitespace).reverse

/-- Surrounding-whitespace trimming on strings. -/
def trimSpace (s : String) : String :=
  ⟨trimChars s.data⟩

/-- Modelled from the spec: the parsed-target type (`URL`, defined outside
`domainset.go`), exposing the full host, the registered domain (empty for a
bare hostname), and the "host is a literal IP address" predicate
(`HostIsIP()` in the source, a field here). -/
structure URL where
  Host : String
  Domain : String
  HostIsIP : Bool
deriving DecidableEq

/-- Modelled from the spec: the process-wide configuration object (outside
`domainset.go`) exposing the two persistence booleans `config.UpdateBlocked`
and `config.UpdateDirect`. -/
structure Config where
  UpdateBlocked : Bool
  UpdateDirect : Bool
deriving DecidableEq

/-- Go `dmSet` is `map[string]bool` used as a set of domain strings;
`paraDmSet` only adds a lock around it, which the sequential model elides. -/
abbrev dmSet := Finset String

/-- Go map read `ds[s]` / `ds.has(s)`: membership, `false` when absent. -/
def dmHas (ds : dmSet) (s : String) : Bool :=
  decide (s ∈ ds)

/-- `dmSet.addList`: insert every element of the list into the set. -/
def addList (ds : dmSet) (lst : List String) : dmSet :=
  ds ∪ lst.toFinset

/-- The `DomainSet` aggregate of `domainset.go`: the two learned sets with
their dirty flags, the two always-sets, and the transient `chouSet`.  The
`chouSet` field is the `TimeoutSet` (defined outside `domainset.go`),
modelled from the spec as the set of currently live (non-expired) members,
since no claim below depends on the passage of time. -/
structure DomainSet where
  direct : dmSet
  blocked : dmSet
  blockedChanged : Bool
  directChanged : Bool
  alwaysBlocked : dmSet
  alwaysDirect : dmSet
  chouSet : dmSet
deriving DecidableEq

/-- `newDomainSet()`: every set empty, both dirty flags false. -/
def newDomainSet : DomainSet :=
  ⟨∅, ∅, false, false, ∅, ∅, ∅⟩

namespace DomainSet

/-- `isURLInAlwaysDs`: note the Go source returns `true` when
`url.Domain == ""`. -/
def isURLInAlwaysDs (ds : DomainSet) (url : URL) : Bool :=
  url.Domain == "" || dmHas ds.alwaysDirect url.Host || dmHas ds.alwaysDirect url.Domain ||
    dmHas ds.alwaysBlocked url.Host || dmHas ds.alwaysBlocked url.Domain

/-- `isURLAlwaysDirect`: always use direct access for a simple host name. -/
def isURLAlwaysDirect (ds : DomainSet) (url : URL) : Bool :=
  if url.Domain == "" then true
  else dmHas ds.alwaysDirect url.Host || dmHas ds.alwaysDirect url.Domain

/-- `isURLAlwaysBlocked`. -/
def isURLAlwaysBlocked (ds : DomainSet) (url : URL) : Bool :=
  if url.Domain == "" then false
  else dmHas ds.alwaysBlocked url.Host || dmHas ds.alwaysBlocked url.Domain

/-- `lookupBlocked` (the debug-build port assertion is a no-op in
production per §7 of the spec and is elided). -/
def lookupBlocked (ds : DomainSet) (s : String) : Bool :=
  if dmHas ds.alwaysDirect s then false
  else if dmHas ds.alwaysBlocked s then true
  else if dmHas ds.chouSet s then true
  else dmHas ds.blocked s

/-- `isURLBlocked`. -/
def isURLBlocked (ds : DomainSet) (url : URL) : Bool :=
  if url.Domain == "" then false
  else lookupBlocked ds url.Host || lookupBlocked ds url.Domain

/-- `lookupDirect` (debug assertion elided as above). -/
def lookupDirect (ds : DomainSet) (s : String) : Bool :=
  if dmHas ds.alwaysDirect s then true
  else if dmHas ds.alwaysBlocked s then false
  else dmHas ds.direct s

/-- `isURLDirect`. -/
def isURLDirect (ds : DomainSet) (url : URL) : Bool :=
  if url.Domain == "" then true
  else lookupDirect ds url.Host || lookupDirect ds url.Domain

/-- `addChouURL`: record into the transient set; returns the new state and
the reported boolean (logging elided). -/
def addChouURL (ds : DomainSet) (url : URL) : DomainSet × Bool :=
  if isURLAlwaysDirect ds url || url.Domain == "" || url.HostIsIP then (ds, false)
  else if dmHas ds.chouSet url.Domain then (ds, true)
  else ({ ds with chouSet := insert url.Domain ds.chouSet }, true)

/-- `addBlockedURL`: returns the new state and whether the host is taken as
blocked. -/
def addBlockedURL (cfg : Config) (ds : DomainSet) (url : URL) : DomainSet × Bool :=
  if !cfg.UpdateBlocked then addChouURL ds url
  else if isURLAlwaysDirect ds url || url.Domain == "" || url.HostIsIP then (ds, false)
  else if dmHas ds.blocked url.Domain then (ds, true)
  else
    let ds1 : DomainSet :=
      { ds with blocked := insert url.Domain ds.blocked, blockedChanged := true }
    if dmHas ds1.direct url.Domain then
      ({ ds1 with direct := ds1.direct.erase url.Domain, directChanged := true }, true)
    else (ds1, true)

/-- `addDirectURL`. -/
def addDirectURL (cfg : Config) (ds : DomainSet) (url : URL) : DomainSet × Bool :=
  if !cfg.UpdateDirect then (ds, false)
  else if isURLInAlwaysDs ds url || url.Domain == "" || url.HostIsIP ||
      dmHas ds.direct url.Domain then (ds, false)
  else
    let ds1 : DomainSet :=
      { ds with direct := insert url.Domain ds.direct, directChanged := true }
    if dmHas ds1.blocked url.Domain then
      ({ ds1 with blocked := ds1.blocked.erase url.Domain, blockedChanged := true }, true)
    else (ds1, true)

end DomainSet

/-- Lexicographic sorting of a list of domain names, the observable effect
of Go's `sort.Sort(sort.StringSlice(lst))`. -/
def sortDomains (lst : List String) : List String :=
  lst.insertionSort strLeProp

instance : IsTotal String strLeProp where
  total a b := by
    unfold strLeProp strLe
    generalize a.data = x
    generalize b.data = y
    induction x generalizing y with
    | nil => left; rfl
    | cons c cs ih =>
      cases y with
      | nil => right; rfl
      | cons d ds =>
        rcases lt_trichotomy c d with h | h | h
        · left; simp [lexLe, h]
        · subst h
          rcases ih ds with h2 | h2
          · left; simp [lexLe, lt_irrefl, h2]
          · right; simp [lexLe, lt_irrefl, h2]
        · right; simp [lexLe, h]

instance : IsTrans String strLeProp where
  trans a b c hab hbc := by
    unfold strLeProp strLe at *
    revert hab hbc
    generalize a.data = x
    generalize b.data = y
    generalize c.data = z
    induction x generalizing y z with
    | nil => intro _ _; rfl
    | cons p ps ih =>
      cases y with
      | nil => intro hab _; simp [lexLe] at hab
      | cons q qs =>
        cases z with
        | nil => intro _ hbc; simp [lexLe] at hbc
        | cons r rs =>
          intro hab hbc
          simp only [lexLe] at hab hbc ⊢
          by_cases hpq : p < q
          · by_cases hqr : q < r
            · simp [lt_trans hpq hqr]
            · by_cases hrq : r < q
              · simp [hqr, hrq] at hbc
              · have : q = r := le_antisymm (not_lt.mp hrq) (not_lt.mp hqr)
                subst this
                simp [hpq]
          · by_cases hqp : q < p
            · simp [hpq, hqp] at hab
            · have hpq2 : p = q := le_antisymm (not_lt.mp hqp) (not_lt.mp hpq)
              subst hpq2
              simp only [lt_irrefl, if_false] at hab
              by_cases hqr : p < r
              · simp [hqr]
              · by_cases hrq : r < p
                · simp [hqr, hrq] at hbc
                · have : p = r := le_antisymm (not_lt.mp hrq) (not_lt.mp hqr)
                  subst this
                  simp only [lt_irrefl, if_false] at hbc ⊢
                  exact ih qs rs hab hbc

instance : IsAntisymm String strLeProp where
  antisymm a b hab hba := by
    unfold strLeProp strLe at hab hba
    apply String.ext
    revert hab hba
    generalize a.data = x
    generalize b.data = y
    induction x generalizing y with
    | nil =>
      cases y with
      | nil => intro _ _; rfl
      | cons d ds => intro _ hba; simp [lexLe] at hba
    | cons c cs ih =>
      cases y with
      | nil => intro hab _; simp [lexLe] at hab
      | cons d ds =>
        intro hab hba
        simp only [lexLe] at hab hba
        by_cases hcd : c < d
        · simp [hcd, asymm hcd] at hba
        · by_cases hdc : d < c
          · simp [hcd, hdc] at hab
          · have : c = d := le_antisymm (not_lt.mp hdc) (not_lt.mp hcd)
            subst this
            simp only [lt_irrefl, if_false] at hab hba
            rw [ih ds hab hba]

/-- `dmSet.toSlice`: enumerate the set as a list.  Go map iteration order
is arbitrary; since every observable use sorts the slice afterwards, the
model enumerates in sorted order. -/
def toSlice (ds : dmSet) : List String :=
  ds.sort strLeProp

/-- `loadDomainList`: the file is modelled as its list of lines (the
line-reading utility `ReadLine` lives outside `domainset.go`; modelled from
the spec as yielding the lines of the file).  Empty lines are skipped, and
kept lines are trimmed of surrounding whitespace — in that order, as in the
source. -/
def loadDomainList (fileLines : List String) : List String :=
  (fileLines.filter (· != "")).map trimSpace

/-- `storeDomainList`: the observable content written to the target path is
the lexicographically sorted list of names (temp-file creation and the
atomic rename are file-system mechanics outside the model). -/
def storeDomainList (lst : List String) : List String :=
  sortDomains lst

namespace DomainSet

/-- `storeBlockedDs`: returns the (unchanged) state and the content written
to the blocked file, if any.  The Go source does not reset
`blockedChanged`. -/
def storeBlockedDs (cfg : Config) (ds : DomainSet) : DomainSet × Option (List String) :=
  if !cfg.UpdateBlocked || !ds.blockedChanged then (ds, none)
  else (ds, some (storeDomainList (toSlice ds.blocked)))

/-- `storeDirectDs`: likewise for the direct file. -/
def storeDirectDs (cfg : Config) (ds : DomainSet) : DomainSet × Option (List String) :=
  if !cfg.UpdateDirect || !ds.directChanged then (ds, none)
  else (ds, some (storeDomainList (toSlice ds.direct)))

/-- `store`: persist both learned sets; returns the final state, the
content written for the blocked set, and the content written for the
direct set. -/
def store (cfg : Config) (ds : DomainSet) :
    DomainSet × Option (List String) × Option (List String) :=
  let rb := storeBlockedDs cfg ds
  let rd := storeDirectDs cfg rb.1
  (rd.1, rb.2, rd.2)

/-- `filterOutDs`: remove every member of `dmset` from both learned sets,
setting the corresponding dirty flag whenever a removal happened. -/
def filterOutDs (ds : DomainSet) (dmset : dmSet) : DomainSet :=
  { ds with
    blocked := ds.blocked \ dmset
    blockedChanged := ds.blockedChanged || decide (ds.blocked ∩ dmset).Nonempty
    direct := ds.direct \ dmset
    directChanged := ds.directChanged || decide (ds.direct ∩ dmset).Nonempty }

/-- `filterOutBlockedInDirect`: a name in both learned sets is kept only in
the blocked set; a name in both always-sets is removed from always-direct
with a logged warning.  The returned list is the warned names (the
logging sink is outside `domainset.go`). -/
def filterOutBlockedInDirect (ds : DomainSet) : DomainSet × List String :=
  let ds1 : DomainSet :=
    { ds with
      direct := ds.direct \ ds.blocked
      directChanged := ds.directChanged || decide (ds.direct ∩ ds.blocked).Nonempty }
  (({ ds1 with alwaysDirect := ds1.alwaysDirect \ ds1.alwaysBlocked }),
    toSlice (ds1.alwaysBlocked ∩ ds1.alwaysDirect))

/-- `load`: seed the learned sets from the literal lists, add the contents
of the four files (each file given as its list of lines), then enforce the
invariants.  Returns the loaded state and the warned conflicting names. -/
def load (blockedDomainList directDomainList fileBlocked fileDirect
    fileAlwaysBlocked fileAlwaysDirect : List String) : DomainSet × List String :=
  let ds0 := newDomainSet
  let ds1 := { ds0 with blocked := addList ds0.blocked blockedDomainList }
  let ds2 := { ds1 with direct := addList ds1.direct directDomainList }
  let ds3 := { ds2 with blocked := addList ds2.blocked (loadDomainList fileBlocked) }
  let ds4 := { ds3 with direct := addList ds3.direct (loadDomainList fileDirect) }
  let ds5 := { ds4 with alwaysBlocked := addList ds4.alwaysBlocked (loadDomainList fileAlwaysBlocked) }
  let ds6 := { ds5 with alwaysDirect := addList ds5.alwaysDirect (loadDomainList fileAlwaysDirect) }
  let ds7 := filterOutDs ds6 ds6.alwaysDirect
  let ds8 := filterOutDs ds7 ds7.alwaysBlocked
  filterOutBlockedInDirect ds8

end DomainSet

/-- One recorded connection outcome: a `recordBlocked` (`addBlockedURL`) or
`recordDirect` (`addDirectURL`) call on a parsed target. -/
inductive RecordOp where
  | blocked (url : URL)
  | direct (url : URL)

/-- Run a sequence of record operations left to right under a fixed
configuration, keeping only the evolving state. -/
def runOps (cfg : Config) (ds : DomainSet) (ops : List RecordOp) : DomainSet :=
  ops.foldl
    (fun s op =>
      match op with
      | RecordOp.blocked u => (DomainSet.addBlockedURL cfg s u).1
      | RecordOp.direct u => (DomainSet.addDirectURL cfg s u).1)
    ds

/-! ## Helper lemmas -/

theorem toSlice_eq_singleton {s : dmSet} {a : String} (h : s = {a}) : toSlice s = [a] := by
  rw [h, toSlice, Finset.sort_singleton]

/-! ## Claims -/

/-- C1, counterexample: with Always-Direct containing only the full host
and the Transient-Blocked set containing the registered domain, the URL's
host is a member of Always-Direct and yet `isURLBlocked` returns `true`
(the original claim demands `false` there). -/
theorem C1_counterexample :
    ("www.a.com" : String) ∈
        ({ newDomainSet with alwaysDirect := {"www.a.com"}, chouSet := {"a.com"} } :
          DomainSet).alwaysDirect ∧
      DomainSet.isURLBlocked
        { newDomainSet with alwaysDirect := {"www.a.com"}, chouSet := {"a.com"} }
        ⟨"www.a.com", "a.com", false⟩ = true := by
  constructor
  · decide
  · decide

/-- C1, amended: for every URL whose full host and registered domain are
both members of Always-Direct, classification is direct regardless of the
contents of the Learned-Blocked, Learned-Direct, Transient-Blocked and
Always-Blocked sets: `isURLBlocked` returns `false` and `isURLDirect`
returns `true`. -/
theorem C1_always_direct_both_keys (ds : DomainSet) (url : URL)
    (hh : url.Host ∈ ds.alwaysDirect) (hd : url.Domain ∈ ds.alwaysDirect) :
    DomainSet.isURLBlocked ds url = false ∧ DomainSet.isURLDirect ds url = true := by
  unfold DomainSet.isURLBlocked DomainSet.isURLDirect DomainSet.lookupBlocked
    DomainSet.lookupDirect dmHas
  by_cases hD : url.Domain == "" <;> simp [hD, hh, hd]

/-- C1, witness: the amended theorem applied to a state whose other sets
all contain the registered domain. -/
theorem C1_witness :
    DomainSet.isURLBlocked
        { newDomainSet with
          alwaysDirect := {"www.a.com", "a.com"},
          alwaysBlocked := {"a.com"},
          blocked := {"a.com"},
          direct := {"a.com"},
          chouSet := {"a.com"} } ⟨"www.a.com", "a.com", false⟩ = false ∧
      DomainSet.isURLDirect
        { newDomainSet with
          alwaysDirect := {"www.a.com", "a.com"},
          alwaysBlocked := {"a.com"},
          blocked := {"a.com"},
          direct := {"a.com"},
          chouSet := {"a.com"} } ⟨"www.a.com", "a.com", false⟩ = true :=
  C1_always_direct_both_keys _ _ (by decide) (by decide)

/-- C3, counterexample: with persistence of the blocked set enabled and the
blocked dirty flag set, `storeBlockedDs` writes the set's contents but the
dirty flag is still set afterwards — the source never clears it, while the
claim says the flag is cleared after the write. -/
theorem C3_counterexample :
    (DomainSet.storeBlockedDs ⟨true, true⟩
        { newDomainSet with blocked := {"x.com"}, blockedChanged := true }).2 =
        some ["x.com"] ∧
      (DomainSet.storeBlockedDs ⟨true, true⟩
        { newDomainSet with blocked := {"x.com"}, blockedChanged := true }).1.blockedChanged =
        true := by
  constructor
  · show (if !true || !true then _ else (_, some (storeDomainList (toSlice {"x.com"})))).2 =
      some ["x.com"]
    rw [toSlice_eq_singleton rfl]
    decide
  · decide

/-- C3, amended: `store` leaves the entire state (both dirty flags
included) unchanged; it writes a learned set's sorted contents exactly when
that set's persistence is enabled and its dirty flag is set, and writes
nothing for it otherwise.  The dirty flag is not cleared by persistence. -/
theorem C3_store_writes_iff_dirty (cfg : Config) (ds : DomainSet) :
    (DomainSet.store cfg ds).1 = ds ∧
      (DomainSet.store cfg ds).2.1 =
        (if cfg.UpdateBlocked && ds.blockedChanged
          then some (storeDomainList (toSlice ds.blocked)) else none) ∧
      (DomainSet.store cfg ds).2.2 =
        (if cfg.UpdateDirect && ds.directChanged
          then some (storeDomainList (toSlice ds.direct)) else none) := by
  unfold DomainSet.store DomainSet.storeBlockedDs DomainSet.storeDirectDs
  cases hb : cfg.UpdateBlocked <;> cases hc : ds.blockedChanged <;>
    cases hd : cfg.UpdateDirect <;> cases he : ds.directChanged <;> simp [hb, hc, hd, he]

/-- C4, counterexample: for a URL with an empty registered domain,
`isURLInAlwaysDs` returns `true` even on a state whose always-sets are
empty — the claim says it returns `false` for every such URL. -/
theorem C4_counterexample :
    (⟨"foo", "", false⟩ : URL).Domain = "" ∧
      DomainSet.isURLInAlwaysDs newDomainSet ⟨"foo", "", false⟩ = true := by
  constructor
  · rfl
  · decide

/-- C4, amended: `isURLInAlwaysDs` returns `true` for every URL whose
registered domain is empty. -/
theorem C4_empty_domain_in_always (ds : DomainSet) (url : URL) (h : url.Domain = "") :
    DomainSet.isURLInAlwaysDs ds url = true := by
  simp [DomainSet.isURLInAlwaysDs, h]

/-- C4, witness: the amended theorem applied to the empty state and a bare
hostname. -/
theorem C4_witness : DomainSet.isURLInAlwaysDs newDomainSet ⟨"bar", "", false⟩ = true :=
  C4_empty_domain_in_always newDomainSet ⟨"bar", "", false⟩ rfl

/-- C5, counterexample: on the empty state, a URL with a non-empty
registered domain matching none of the five sets gets
`isURLDirect = false`, while the claim says the query returns `true`
(the "direct by default" reading). -/
theorem C5_counterexample :
    (⟨"www.x.com", "x.com", false⟩ : URL).Domain ≠ "" ∧
      DomainSet.isURLDirect newDomainSet ⟨"www.x.com", "x.com", false⟩ = false := by
  constructor
  · decide
  · decide

/-- C5, amended: for every URL with a non-empty registered domain whose
host and registered domain appear in none of the five sets, `isURLBlocked`
returns `false` and `isURLDirect` also returns `false` (treating the
unknown domain as direct is the caller's policy, not this query's
result). -/
theorem C5_no_match_defaults (ds : DomainSet) (url : URL)
    (hD : url.Domain ≠ "")
    (had : url.Host ∉ ds.alwaysDirect ∧ url.Domain ∉ ds.alwaysDirect)
    (hab : url.Host ∉ ds.alwaysBlocked ∧ url.Domain ∉ ds.alwaysBlocked)
    (hbl : url.Host ∉ ds.blocked ∧ url.Domain ∉ ds.blocked)
    (hdi : url.Host ∉ ds.direct ∧ url.Domain ∉ ds.direct)
    (hch : url.Host ∉ ds.chouSet ∧ url.Domain ∉ ds.chouSet) :
    DomainSet.isURLBlocked ds url = false ∧ DomainSet.isURLDirect ds url = false := by
  obtain ⟨had1, had2⟩ := had
  obtain ⟨hab1, hab2⟩ := hab
  obtain ⟨hbl1, hbl2⟩ := hbl
  obtain ⟨hdi1, hdi2⟩ := hdi
  obtain ⟨hch1, hch2⟩ := hch
  unfold DomainSet.isURLBlocked DomainSet.isURLDirect DomainSet.lookupBlocked
    DomainSet.lookupDirect dmHas
  simp [hD, had1, had2, hab1, hab2, hbl1, hbl2, hdi1, hdi2, hch1, hch2]

/-- C5, witness: the amended theorem applied to the empty state. -/
theorem C5_witness :
    DomainSet.isURLBlocked newDomainSet ⟨"www.x.com", "x.com", false⟩ = false ∧
      DomainSet.isURLDirect newDomainSet ⟨"www.x.com", "x.com", false⟩ = false :=
  C5_no_match_defaults newDomainSet ⟨"www.x.com", "x.com", false⟩ (by decide)
    (by decide) (by decide) (by decide) (by decide) (by decide)

/-- C6: for every URL target that is always-direct, or has an empty
registered domain, or whose host is a literal IP, `addBlockedURL` reports
"not recorded" and leaves the whole state (all five sets, both dirty
flags, the transient set) unchanged, under either persistence setting. -/
theorem C6_not_recorded (cfg : Config) (ds : DomainSet) (url : URL)
    (h : DomainSet.isURLAlwaysDirect ds url = true ∨ url.Domain = "" ∨ url.HostIsIP = true) :
    DomainSet.addBlockedURL cfg ds url = (ds, false) := by
  have hg : (DomainSet.isURLAlwaysDirect ds url || url.Domain == "" || url.HostIsIP) = true := by
    rcases h with h | h | h <;> simp [h]
  unfold DomainSet.addBlockedURL DomainSet.addChouURL
  cases hu : cfg.UpdateBlocked <;> simp [hu, hg]

/-- C6, witness: a literal-IP target on the empty state, with persistence
enabled. -/
theorem C6_witness :
    DomainSet.addBlockedURL ⟨true, true⟩ newDomainSet ⟨"1.2.3.4", "1.2.3.4", true⟩ =
      (newDomainSet, false) :=
  C6_not_recorded ⟨true, true⟩ newDomainSet ⟨"1.2.3.4", "1.2.3.4", true⟩
    (Or.inr (Or.inr rfl))

theorem addBlockedURL_mutex (cfg : Config) (ds : DomainSet) (u : URL) (d : String)
    (h : ¬(d ∈ ds.blocked ∧ d ∈ ds.direct)) :
    ¬(d ∈ (DomainSet.addBlockedURL cfg ds u).1.blocked ∧
        d ∈ (DomainSet.addBlockedURL cfg ds u).1.direct) := by
  unfold DomainSet.addBlockedURL DomainSet.addChouURL
  cases hu : cfg.UpdateBlocked with
  | false =>
    simp only [hu, Bool.not_false, if_true]
    split
    · exact h
    · split
      · exact h
      · exact h
  | true =>
    simp only [hu, Bool.not_true, Bool.false_eq_true, if_false]
    split
    · exact h
    · split
      · exact h
      · split
        · simp only [Finset.mem_insert, Finset.mem_erase]
          rintro ⟨h1, h2, h3⟩
          rcases h1 with h1 | h1
          · exact h2 h1
          · exact h ⟨h1, h3⟩
        · rename_i hnd
          simp only [Finset.mem_insert]
          rintro ⟨h1, h2⟩
          rcases h1 with h1 | h1
          · subst h1
            rw [dmHas] at hnd
            simp at hnd
            exact hnd h2
          · exact h ⟨h1, h2⟩

theorem addDirectURL_mutex (cfg : Config) (ds : DomainSet) (u : URL) (d : String)
    (h : ¬(d ∈ ds.blocked ∧ d ∈ ds.direct)) :
    ¬(d ∈ (DomainSet.addDirectURL cfg ds u).1.blocked ∧
        d ∈ (DomainSet.addDirectURL cfg ds u).1.direct) := by
  unfold DomainSet.addDirectURL
  cases hu : cfg.UpdateDirect with
  | false =>
    simp only [hu, Bool.not_false, if_true]
    exact h
  | true =>
    simp only [hu, Bool.not_true, Bool.false_eq_true, if_false]
    split
    · exact h
    · split
      · simp only [Finset.mem_insert, Finset.mem_erase]
        rintro ⟨⟨h2, h3⟩, h1⟩
        rcases h1 with h1 | h1
        · exact h2 h1
        · exact h ⟨h3, h1⟩
      · rename_i hnb
        simp only [Finset.mem_insert]
        rintro ⟨h1, h2⟩
        rcases h2 with h2 | h2
        · subst h2
          rw [dmHas] at hnb
          simp at hnb
          exact hnb h1
        · exact h ⟨h1, h2⟩

/-- C2: for every domain d, starting from a state where d is in at most
one of the learned sets, after any sequence of `addBlockedURL` and
`addDirectURL` calls executed sequentially, d is never simultaneously in
Learned-Blocked and Learned-Direct. -/
theorem C2_mutual_exclusion (cfg : Config) (ds : DomainSet) (ops : List RecordOp)
    (d : String) (h : ¬(d ∈ ds.blocked ∧ d ∈ ds.direct)) :
    ¬(d ∈ (runOps cfg ds ops).blocked ∧ d ∈ (runOps cfg ds ops).direct) := by
  induction ops generalizing ds with
  | nil => exact h
  | cons op rest ih =>
    cases op with
    | blocked u => exact ih _ (addBlockedURL_mutex cfg ds u d h)
    | direct u => exact ih _ (addDirectURL_mutex cfg ds u d h)

/-- C2, witness: recording x.com blocked then direct from the empty
state. -/
theorem C2_witness :
    ¬(("x.com" : String) ∈ (∅ : dmSet) ∧ ("x.com" : String) ∈ (∅ : dmSet)) ∧
      ¬(("x.com" : String) ∈
          (runOps ⟨true, true⟩ newDomainSet
            [RecordOp.blocked ⟨"www.x.com", "x.com", false⟩,
              RecordOp.direct ⟨"www.x.com", "x.com", false⟩]).blocked ∧
        ("x.com" : String) ∈
          (runOps ⟨true, true⟩ newDomainSet
            [RecordOp.blocked ⟨"www.x.com", "x.com", false⟩,
              RecordOp.direct ⟨"www.x.com", "x.com", false⟩]).direct) :=
  ⟨by decide,
    C2_mutual_exclusion ⟨true, true⟩ newDomainSet
      [RecordOp.blocked ⟨"www.x.com", "x.com", false⟩,
        RecordOp.direct ⟨"www.x.com", "x.com", false⟩] "x.com" (by decide)⟩

theorem addChouURL_state_idem (ds : DomainSet) (url : URL) :
    (DomainSet.addChouURL (DomainSet.addChouURL ds url).1 url).1 =
      (DomainSet.addChouURL ds url).1 := by
  unfold DomainSet.addChouURL
  cases hg : (DomainSet.isURLAlwaysDirect ds url || url.Domain == "" || url.HostIsIP) with
  | true => simp [hg]
  | false =>
    cases hc : dmHas ds.chouSet url.Domain with
    | true => simp [hg, hc]
    | false =>
      have hg1 : DomainSet.isURLAlwaysDirect
          { ds with chouSet := insert url.Domain ds.chouSet } url =
          DomainSet.isURLAlwaysDirect ds url := rfl
      simp [hg, hc, hg1, dmHas]

/-- C7: calling `addBlockedURL` twice in succession yields the same final
state (all five sets, both dirty flags, the transient set) as calling it
once — the second call performs no state mutation — whether blocked-set
persistence is enabled (learned path) or disabled (transient path). -/
theorem C7_record_blocked_idempotent (cfg : Config) (ds : DomainSet) (url : URL) :
    (DomainSet.addBlockedURL cfg (DomainSet.addBlockedURL cfg ds url).1 url).1 =
      (DomainSet.addBlockedURL cfg ds url).1 := by
  cases hu : cfg.UpdateBlocked with
  | false =>
    have h1 : ∀ s, DomainSet.addBlockedURL cfg s url = DomainSet.addChouURL s url := by
      intro s
      unfold DomainSet.addBlockedURL
      simp [hu]
    rw [h1, h1, addChouURL_state_idem]
  | true =>
    unfold DomainSet.addBlockedURL
    simp only [hu, Bool.not_true, Bool.false_eq_true, if_false]
    cases hg : (DomainSet.isURLAlwaysDirect ds url || url.Domain == "" || url.HostIsIP) with
    | true => simp [hg]
    | false =>
      cases hb : dmHas ds.blocked url.Domain with
      | true => simp [hg, hb]
      | false =>
        cases hd : dmHas ds.direct url.Domain with
        | true =>
          have hg1 : DomainSet.isURLAlwaysDirect
              { ds with
                blocked := insert url.Domain ds.blocked,
                blockedChanged := true,
                direct := ds.direct.erase url.Domain,
                directChanged := true } url = DomainSet.isURLAlwaysDirect ds url := rfl
          simp [hg, hb, hd, hg1, dmHas]
        | false =>
          have hg1 : DomainSet.isURLAlwaysDirect
              { ds with
                blocked := insert url.Domain ds.blocked,
                blockedChanged := true } url = DomainSet.isURLAlwaysDirect ds url := rfl
          simp [hg, hb, hd, hg1, dmHas]

theorem sortDomains_idem (l : List String) :
    sortDomains (sortDomains l) = sortDomains l := by
  apply List.eq_of_perm_of_sorted (r := strLeProp)
  · exact List.perm_insertionSort strLeProp (sortDomains l)
  · exact List.sorted_insertionSort strLeProp (sortDomains l)
  · exact List.sorted_insertionSort strLeProp l

/-- C8: for every list of names whose entries are non-empty, carry no
surrounding whitespace and contain no newline, storing the list and
loading it back yields the same multiset of names: the two sequences are
equal after lexicographic sorting. -/
theorem C8_roundtrip (L : List String)
    (h : ∀ s ∈ L, s ≠ "" ∧ trimSpace s = s ∧ '\n' ∉ s.data) :
    sortDomains (loadDomainList (storeDomainList L)) = sortDomains L := by
  have hls : loadDomainList (storeDomainList L) = sortDomains L := by
    unfold loadDomainList storeDomainList
    have hmem : ∀ s ∈ sortDomains L, s ∈ L := by
      intro s hs
      exact (List.mem_insertionSort strLeProp).mp hs
    have hfilter : (sortDomains L).filter (· != "") = sortDomains L := by
      apply List.filter_eq_self.mpr
      intro a ha
      have := (h a (hmem a ha)).1
      simpa using this
    rw [hfilter]
    have hmap : (sortDomains L).map trimSpace = (sortDomains L).map id := by
      apply List.map_congr_left
      intro a ha
      exact (h a (hmem a ha)).2.1
    rw [hmap, List.map_id]
  rw [hls, sortDomains_idem]

/-- C8, witness: round-trip of the two-element list b.com, a.com. -/
theorem C8_witness :
    (∀ s ∈ ["b.com", "a.com"], s ≠ "" ∧ trimSpace s = s ∧ '\n' ∉ s.data) ∧
      sortDomains (loadDomainList (storeDomainList ["b.com", "a.com"])) =
        sortDomains ["b.com", "a.com"] :=
  ⟨by decide, C8_roundtrip ["b.com", "a.com"] (by decide)⟩

/-- C9: a name present in both always-sets after loading is removed from
Always-Direct, kept in Always-Blocked, and appears in the warned names;
concretely, loading Always-Blocked a.com and Always-Direct a.com, b.com
leaves Always-Direct with exactly b.com, Always-Blocked with a.com, and
warns about a.com. -/
theorem C9_conflict_resolution :
    (∀ (ds : DomainSet) (name : String),
      name ∈ ds.alwaysBlocked → name ∈ ds.alwaysDirect →
        name ∉ (DomainSet.filterOutBlockedInDirect ds).1.alwaysDirect ∧
          name ∈ (DomainSet.filterOutBlockedInDirect ds).1.alwaysBlocked ∧
          name ∈ (DomainSet.filterOutBlockedInDirect ds).2) ∧
      (DomainSet.load [] [] [] [] ["a.com"] ["a.com", "b.com"]).1.alwaysDirect = {"b.com"} ∧
      (DomainSet.load [] [] [] [] ["a.com"] ["a.com", "b.com"]).1.alwaysBlocked = {"a.com"} ∧
      (DomainSet.load [] [] [] [] ["a.com"] ["a.com", "b.com"]).2 = ["a.com"] := by
  refine ⟨?_, by decide, by decide, ?_⟩
  · intro ds name hb hd
    unfold DomainSet.filterOutBlockedInDirect
    refine ⟨?_, hb, ?_⟩
    · simp [Finset.mem_sdiff, hb]
    · simp [toSlice, Finset.mem_sort, Finset.mem_inter, hb, hd]
  · simp only [DomainSet.load, DomainSet.filterOutBlockedInDirect]
    apply toSlice_eq_singleton
    decide

/-- C9, witness: the general conjunct applied to a state with a.com in
both always-sets. -/
theorem C9_witness :
    ("a.com" : String) ∈
        ({ newDomainSet with
          alwaysBlocked := {"a.com"},
          alwaysDirect := {"a.com", "b.com"} } : DomainSet).alwaysBlocked ∧
      ("a.com" : String) ∈
        ({ newDomainSet with
          alwaysBlocked := {"a.com"},
          alwaysDirect := {"a.com", "b.com"} } : DomainSet).alwaysDirect ∧
      (("a.com" : String) ∉
          (DomainSet.filterOutBlockedInDirect
            { newDomainSet with
              alwaysBlocked := {"a.com"},
              alwaysDirect := {"a.com", "b.com"} }).1.alwaysDirect ∧
        ("a.com" : String) ∈
          (DomainSet.filterOutBlockedInDirect
            { newDomainSet with
              alwaysBlocked := {"a.com"},
              alwaysDirect := {"a.com", "b.com"} }).1.alwaysBlocked ∧
        ("a.com" : String) ∈
          (DomainSet.filterOutBlockedInDirect
            { newDomainSet with
              alwaysBlocked := {"a.com"},
              alwaysDirect := {"a.com", "b.com"} }).2) :=
  ⟨by decide, by decide,
    C9_conflict_resolution.1
      { newDomainSet with
        alwaysBlocked := {"a.com"},
        alwaysDirect := {"a.com", "b.com"} } "a.com" (by decide) (by decide)⟩

theorem chain_eq {a b c : dmSet} (hcb : c ⊆ b) (hba : b ⊆ a) :
    c = a ↔ (b = a ∧ c = b) := by
  constructor
  · intro h
    have hba2 : b = a := Finset.Subset.antisymm hba (h ▸ hcb)
    exact ⟨hba2, by rw [h, hba2]⟩
  · rintro ⟨h1, h2⟩
    rw [h2, h1]

theorem sdiff_eq_self_iff (s t : dmSet) : s \ t = s ↔ ¬(s ∩ t).Nonempty := by
  rw [Finset.sdiff_eq_self_iff_disjoint, Finset.disjoint_iff_inter_eq_empty,
    ← Finset.not_nonempty_iff_eq_empty]

theorem store_noop (cfg : Config) (ds : DomainSet) (hb : ds.blockedChanged = false)
    (hd : ds.directChanged = false) : DomainSet.store cfg ds = (ds, none, none) := by
  unfold DomainSet.store DomainSet.storeBlockedDs DomainSet.storeDirectDs
  cases hu : cfg.UpdateBlocked <;> cases hv : cfg.UpdateDirect <;> simp [hu, hv, hb, hd]

/-- C10: after `load`, the blocked (resp. direct) dirty flag is set exactly
when invariant-enforcement filtering removed some name from the loaded
Learned-Blocked (resp. Learned-Direct) set; and when filtering removed
nothing, both flags are false and a subsequent `store` writes no file. -/
theorem C10_load_dirty_flags (bl dl fb fd fab fad : List String) (cfg : Config) :
    ((DomainSet.load bl dl fb fd fab fad).1.blockedChanged = true ↔
        (DomainSet.load bl dl fb fd fab fad).1.blocked ≠
          addList (addList ∅ bl) (loadDomainList fb)) ∧
      ((DomainSet.load bl dl fb fd fab fad).1.directChanged = true ↔
        (DomainSet.load bl dl fb fd fab fad).1.direct ≠
          addList (addList ∅ dl) (loadDomainList fd)) ∧
      ((DomainSet.load bl dl fb fd fab fad).1.blockedChanged = false ∧
          (DomainSet.load bl dl fb fd fab fad).1.directChanged = false →
        DomainSet.store cfg (DomainSet.load bl dl fb fd fab fad).1 =
          ((DomainSet.load bl dl fb fd fab fad).1, none, none)) := by
  set B0 : dmSet := addList (addList ∅ bl) (loadDomainList fb) with hB0
  set D0 : dmSet := addList (addList ∅ dl) (loadDomainList fd) with hD0
  set AB : dmSet := addList ∅ (loadDomainList fab) with hAB
  set AD : dmSet := addList ∅ (loadDomainList fad) with hAD
  have hload : DomainSet.load bl dl fb fd fab fad =
      ({ direct := ((D0 \ AD) \ AB) \ ((B0 \ AD) \ AB)
         blocked := (B0 \ AD) \ AB
         blockedChanged :=
           (false || decide (B0 ∩ AD).Nonempty) || decide ((B0 \ AD) ∩ AB).Nonempty
         directChanged :=
           ((false || decide (D0 ∩ AD).Nonempty) || decide ((D0 \ AD) ∩ AB).Nonempty) ||
             decide (((D0 \ AD) \ AB) ∩ ((B0 \ AD) \ AB)).Nonempty
         alwaysBlocked := AB
         alwaysDirect := AD \ AB
         chouSet := ∅ },
       toSlice (AB ∩ AD)) := rfl
  rw [hload]
  refine ⟨?_, ?_, ?_⟩
  · simp only [Bool.false_or, Bool.or_eq_true, decide_eq_true_eq]
    have hc := chain_eq (c := (B0 \ AD) \ AB) (b := B0 \ AD) (a := B0)
      Finset.sdiff_subset Finset.sdiff_subset
    rw [Ne, hc, not_and_or, sdiff_eq_self_iff, sdiff_eq_self_iff, not_not, not_not]
  · simp only [Bool.false_or, Bool.or_eq_true, decide_eq_true_eq]
    have hc1 := chain_eq (c := ((D0 \ AD) \ AB) \ ((B0 \ AD) \ AB))
      (b := (D0 \ AD) \ AB) (a := D0) Finset.sdiff_subset
      (Finset.Subset.trans Finset.sdiff_subset Finset.sdiff_subset)
    have hc2 := chain_eq (c := (D0 \ AD) \ AB) (b := D0 \ AD) (a := D0)
      Finset.sdiff_subset Finset.sdiff_subset
    rw [Ne, hc1, hc2, not_and_or, not_and_or, sdiff_eq_self_iff, sdiff_eq_self_iff,
      sdiff_eq_self_iff, not_not, not_not, not_not, or_assoc]
  · rintro ⟨hb, hd⟩
    exact store_noop cfg _ hb hd

/-- C10, witness: loading nothing removes nothing, both flags are false,
and the subsequent store writes no file. -/
theorem C10_witness :
    (DomainSet.load [] [] [] [] [] []).1.blockedChanged = false ∧
      (DomainSet.load [] [] [] [] [] []).1.directChanged = false ∧
      DomainSet.store ⟨true, true⟩ (DomainSet.load [] [] [] [] [] []).1 =
        ((DomainSet.load [] [] [] [] [] []).1, none, none) :=
  ⟨by decide, by decide,
    (C10_load_dirty_flags [] [] [] [] [] [] ⟨true, true⟩).2.2 ⟨by decide, by decide⟩⟩
